import Mathlib

/-!
Verification of the target-dependency resolver and build-order scheduler of
cheribuild (`pycheribuild`).  The resolver/scheduler implementation itself is
not shipped in this source snapshot (only its test suite
`tests/test_target_order.py` and an unrelated project file are), so the data
model and the operations below are modelled from the specification
(`spec.md` sections 3, 4 and 8) and validated against the exact sequences the
test suite asserts.
-/

namespace Cheribuild

/-- Modelled from the spec: the policy bundle of a resolution request (spec
section 3, "Resolution Request").  The four flags correspond to
`config.include_dependencies`, `config.include_toolchain_dependencies`,
`config.skip_sdk` and `config.build_morello_firmware_from_source` as set by
`_sort_targets` in `tests/test_target_order.py`. -/
structure Policy where
  include_dependencies : Bool
  include_toolchain_dependencies : Bool
  skip_sdk : Bool
  build_morello_firmware_from_source : Bool
deriving DecidableEq

/-- Modelled from the spec: one resolved, variant-aware dependency reference of
a project class (spec section 4.3).  `toolchain` marks toolchain-only
dependencies (dropped unless `include_toolchain_dependencies` is set), and
`sdk` marks SDK-provisioning dependencies (dropped when `skip_sdk` is set). -/
structure DepRef where
  name : String
  toolchain : Bool
  sdk : Bool
deriving DecidableEq

/-- Modelled from the spec: a Project Descriptor instantiated for one concrete
architecture/ABI variant (spec section 3, "Project Descriptor").
`dependencies` is the static, declared dependency-name template list (the
class attribute checked by `inspect.getattr_static` in
`test_webkit_cached_deps`); `depRefs` is the variant-resolved dependency list
(a function of the policy only because `build_morello_firmware_from_source`
toggles between two disjoint dependency sets); `depsMustBeBuilt` marks
targets whose dependencies are expanded even when `include_dependencies` is
off; `directDepsOnly` marks targets whose dependency expansion is not
recursive (the morello-firmware umbrella target). -/
structure ProjectClass where
  name : String
  dependencies : List String
  depRefs : Policy → List DepRef
  depsMustBeBuilt : Bool
  directDepsOnly : Bool

/-- Modelled from the spec: the process-wide registry of concrete targets
(spec section 4.5), restricted to the project classes the test suite and the
claims exercise.  Dependency data follows the expected sequences asserted in
`tests/test_target_order.py`. -/
def registry : List ProjectClass := [
  ⟨"llvm-native", [], fun _ => [], false, false⟩,
  ⟨"qemu", [], fun _ => [], false, false⟩,
  ⟨"gdb-native", [], fun _ => [], false, false⟩,
  ⟨"cheribsd-mips64-hybrid", ["llvm"],
    fun _ => [⟨"llvm-native", true, true⟩], false, false⟩,
  ⟨"cheribsd-mips64-purecap", ["llvm"],
    fun _ => [⟨"llvm-native", true, true⟩], false, false⟩,
  ⟨"gdb-mips64-hybrid", ["cheribsd"],
    fun _ => [⟨"cheribsd-mips64-hybrid", false, true⟩, ⟨"llvm-native", true, true⟩],
    false, false⟩,
  ⟨"postgres-mips64-hybrid", ["cheribsd"],
    fun _ => [⟨"cheribsd-mips64-hybrid", false, true⟩, ⟨"llvm-native", true, true⟩],
    false, false⟩,
  ⟨"disk-image-mips64-hybrid", ["cheribsd", "gdb"],
    fun _ => [⟨"cheribsd-mips64-hybrid", false, true⟩, ⟨"gdb-mips64-hybrid", false, true⟩,
              ⟨"llvm-native", true, true⟩],
    false, false⟩,
  ⟨"run-mips64-hybrid", ["qemu", "disk-image"],
    fun _ => [⟨"qemu", true, true⟩, ⟨"disk-image-mips64-hybrid", false, false⟩],
    false, false⟩,
  ⟨"disk-image-minimal-mips64-hybrid", ["cheribsd"],
    fun _ => [⟨"cheribsd-mips64-hybrid", false, true⟩, ⟨"llvm-native", true, true⟩],
    false, false⟩,
  ⟨"cheribsd-mfs-root-kernel-mips64-hybrid", ["disk-image-minimal"],
    fun _ => [⟨"disk-image-minimal-mips64-hybrid", false, false⟩, ⟨"llvm-native", true, true⟩],
    false, false⟩,
  ⟨"run-minimal-mips64-hybrid", ["qemu", "disk-image-minimal", "cheribsd-mfs-root-kernel"],
    fun _ => [⟨"qemu", true, true⟩, ⟨"disk-image-minimal-mips64-hybrid", false, false⟩,
              ⟨"cheribsd-mfs-root-kernel-mips64-hybrid", false, false⟩],
    false, false⟩,
  ⟨"qtbase-native", [], fun _ => [], false, false⟩,
  ⟨"qtbase-mips64-hybrid", [],
    fun _ => [⟨"llvm-native", true, true⟩, ⟨"cheribsd-mips64-hybrid", false, true⟩],
    false, false⟩,
  ⟨"qtbase-mips64-purecap", [],
    fun _ => [⟨"llvm-native", true, true⟩, ⟨"cheribsd-mips64-purecap", false, true⟩],
    false, false⟩,
  ⟨"icu4c-native", [], fun _ => [], false, false⟩,
  ⟨"icu4c-mips64-hybrid", ["icu4c-native"],
    fun _ => [⟨"icu4c-native", false, false⟩, ⟨"llvm-native", true, true⟩,
              ⟨"cheribsd-mips64-hybrid", false, true⟩],
    false, false⟩,
  ⟨"icu4c-mips64-purecap", ["icu4c-native"],
    fun _ => [⟨"icu4c-native", false, false⟩, ⟨"llvm-native", true, true⟩,
              ⟨"cheribsd-mips64-purecap", false, true⟩],
    false, false⟩,
  ⟨"libxml2-native", [], fun _ => [], false, false⟩,
  ⟨"libxml2-mips64-hybrid", [],
    fun _ => [⟨"llvm-native", true, true⟩, ⟨"cheribsd-mips64-hybrid", false, true⟩],
    false, false⟩,
  ⟨"libxml2-mips64-purecap", [],
    fun _ => [⟨"llvm-native", true, true⟩, ⟨"cheribsd-mips64-purecap", false, true⟩],
    false, false⟩,
  ⟨"sqlite-native", [], fun _ => [], false, false⟩,
  ⟨"sqlite-mips64-hybrid", [],
    fun _ => [⟨"llvm-native", true, true⟩, ⟨"cheribsd-mips64-hybrid", false, true⟩],
    false, false⟩,
  ⟨"sqlite-mips64-purecap", [],
    fun _ => [⟨"llvm-native", true, true⟩, ⟨"cheribsd-mips64-purecap", false, true⟩],
    false, false⟩,
  ⟨"qtwebkit-native", ["qtbase", "icu4c", "libxml2", "sqlite"],
    fun _ => [⟨"qtbase-native", false, false⟩, ⟨"icu4c-native", false, false⟩,
              ⟨"libxml2-native", false, false⟩, ⟨"sqlite-native", false, false⟩],
    false, false⟩,
  ⟨"qtwebkit-mips64-hybrid", ["qtbase", "icu4c", "libxml2", "sqlite"],
    fun _ => [⟨"qtbase-mips64-hybrid", false, false⟩, ⟨"icu4c-mips64-hybrid", false, false⟩,
              ⟨"libxml2-mips64-hybrid", false, false⟩, ⟨"sqlite-mips64-hybrid", false, false⟩,
              ⟨"llvm-native", true, true⟩, ⟨"cheribsd-mips64-hybrid", false, true⟩],
    false, false⟩,
  ⟨"qtwebkit-mips64-purecap", ["qtbase", "icu4c", "libxml2", "sqlite"],
    fun _ => [⟨"qtbase-mips64-purecap", false, false⟩, ⟨"icu4c-mips64-purecap", false, false⟩,
              ⟨"libxml2-mips64-purecap", false, false⟩, ⟨"sqlite-mips64-purecap", false, false⟩,
              ⟨"llvm-native", true, true⟩, ⟨"cheribsd-mips64-purecap", false, true⟩],
    false, false⟩,
  ⟨"libunwind-native", [], fun _ => [], false, false⟩,
  ⟨"libunwind-mips64", [], fun _ => [⟨"llvm-native", true, true⟩], false, false⟩,
  ⟨"libunwind-mips64-hybrid", [], fun _ => [⟨"llvm-native", true, true⟩], false, false⟩,
  ⟨"libunwind-mips64-purecap", [], fun _ => [⟨"llvm-native", true, true⟩], false, false⟩,
  ⟨"libcxxrt-native", ["libunwind"],
    fun _ => [⟨"libunwind-native", false, false⟩], false, false⟩,
  ⟨"libcxxrt-mips64", ["libunwind"],
    fun _ => [⟨"libunwind-mips64", false, false⟩, ⟨"llvm-native", true, true⟩], false, false⟩,
  ⟨"libcxxrt-mips64-hybrid", ["libunwind"],
    fun _ => [⟨"libunwind-mips64-hybrid", false, false⟩, ⟨"llvm-native", true, true⟩],
    false, false⟩,
  ⟨"libcxxrt-mips64-purecap", ["libunwind"],
    fun _ => [⟨"libunwind-mips64-purecap", false, false⟩, ⟨"llvm-native", true, true⟩],
    false, false⟩,
  ⟨"libcxx-native", ["libcxxrt"],
    fun _ => [⟨"libcxxrt-native", false, false⟩], false, false⟩,
  ⟨"libcxx-mips64", ["libcxxrt"],
    fun _ => [⟨"libcxxrt-mips64", false, false⟩, ⟨"llvm-native", true, true⟩], false, false⟩,
  ⟨"libcxx-mips64-hybrid", ["libcxxrt"],
    fun _ => [⟨"libcxxrt-mips64-hybrid", false, false⟩, ⟨"llvm-native", true, true⟩],
    false, false⟩,
  ⟨"libcxx-mips64-purecap", ["libcxxrt"],
    fun _ => [⟨"libcxxrt-mips64-purecap", false, false⟩, ⟨"llvm-native", true, true⟩],
    false, false⟩,
  ⟨"morello-scp-firmware", [], fun _ => [], false, false⟩,
  ⟨"morello-trusted-firmware", [], fun _ => [], false, false⟩,
  ⟨"morello-flash-images", [], fun _ => [], false, false⟩,
  ⟨"morello-acpica", [], fun _ => [], false, false⟩,
  ⟨"morello-llvm", [], fun _ => [], false, false⟩,
  ⟨"morello-uefi", ["gdb", "morello-acpica", "morello-llvm"],
    fun _ => [⟨"gdb-native", true, true⟩, ⟨"morello-acpica", true, true⟩,
              ⟨"morello-llvm", true, true⟩],
    false, false⟩,
  ⟨"morello-firmware", [],
    fun p => if p.build_morello_firmware_from_source then
        [⟨"morello-scp-firmware", false, false⟩, ⟨"morello-trusted-firmware", false, false⟩,
         ⟨"morello-flash-images", false, false⟩, ⟨"morello-uefi", false, false⟩]
      else [],
    true, true⟩]

/-- Look up the project class registered under a concrete target name. -/
def findClass (n : String) : Option ProjectClass :=
  registry.find? (fun c => c.name == n)

/-- Static declared dependency template list of a class (the `dependencies`
class attribute read via `inspect.getattr_static` in the tests). -/
def staticDependencies (cls : String) : List String :=
  match findClass cls with
  | some c => c.dependencies
  | none => []

/-- Variant-resolved direct dependency names of a target, with no policy
filtering applied (used for the full transitive dependency closure). -/
def directDeps (p : Policy) (n : String) : List String :=
  match findClass n with
  | some c => (c.depRefs p).map DepRef.name
  | none => []

/-- Direct dependency names that survive the policy's toolchain and SDK
filters (spec section 4.3). -/
def activeDeps (p : Policy) (c : ProjectClass) : List String :=
  ((c.depRefs p).filter (fun d =>
    (p.include_toolchain_dependencies || !d.toolchain) && (!p.skip_sdk || !d.sdk))).map
    DepRef.name

/-- Remove duplicates keeping the first occurrence, relative to an accumulator
of names already seen. -/
def dedupAux (seen : List String) : List String → List String
  | [] => []
  | x :: xs => if seen.contains x then dedupAux seen xs else x :: dedupAux (x :: seen) xs

/-- Remove duplicates keeping the first occurrence. -/
def dedupFirst (l : List String) : List String := dedupAux [] l

/-- One bounded approximation step of the transitive dependency closure:
level `k+1` adds the direct dependencies of everything at level `k`. -/
def depsLevel (p : Policy) : Nat → String → List String
  | 0, n => dedupFirst (directDeps p n)
  | k + 1, n =>
    let s := depsLevel p k n
    dedupFirst (s ++ s.flatMap (directDeps p))

/-- Modelled from the spec: the full transitive dependency-name closure of a
project class (what `all_dependency_names` computes and caches; spec
section 4.2).  Six closure iterations are enough for the registry, whose
longest dependency chain has length four. -/
def fullDeps (p : Policy) (n : String) : List String := depsLevel p 6 n

/-- Check that the first character list is an initial segment of the second. -/
def charStarts : List Char → List Char → Bool
  | [], _ => true
  | _ :: _, [] => false
  | p :: ps, c :: cs => p == c && charStarts ps cs

/-- Name `s` starts with `pat`. -/
def strStartsWith (s pat : String) : Bool := charStarts pat.data s.data

/-- Name `s` ends with `pat`. -/
def strEndsWith (s pat : String) : Bool := charStarts pat.data.reverse s.data.reverse

/-- Drop the last `n` characters of a name. -/
def strDropRight (s : String) (n : Nat) : String := ⟨s.data.take (s.data.length - n)⟩

/-- Modelled from the spec: the legacy architecture-suffix normalization table
(spec section 4.1 step 2): `-mips-nocheri` to `-mips64`, `-mips-purecap` to
`-mips64-purecap`; `-mips64-hybrid` is already canonical and unchanged. -/
def legacyNormalize (n : String) : String :=
  if strEndsWith n "-mips-nocheri" then strDropRight n 13 ++ "-mips64"
  else if strEndsWith n "-mips-purecap" then strDropRight n 13 ++ "-mips64-purecap"
  else n

/-- Modelled from the spec: alias-to-default-variant mappings (spec section
4.1 step 3), e.g. `llvm` resolves to `llvm-native`. -/
def aliasTable : List (String × String) :=
  [("llvm", "llvm-native"), ("gdb", "gdb-native"), ("binutils", "llvm-native"),
   ("cheribsd-cheri", "cheribsd-mips64-hybrid")]

/-- Concrete target names registered in the registry. -/
def registryNames : List String := registry.map ProjectClass.name

/-- Modelled from the spec: target identity and alias resolution (spec section
4.1): exact registry match first, then legacy suffix normalization, then the
alias table; anything else fails with an unknown-target error. -/
def resolve_target (n : String) : Except String String :=
  if registryNames.contains n then .ok n
  else
    let n2 := legacyNormalize n
    if registryNames.contains n2 then .ok n2
    else
      match aliasTable.lookup n2 with
      | some c => .ok c
      | none => .error ("unknown target: " ++ n2)

/-- Resolve every requested name, failing on the first unknown name. -/
def resolveAll : List String → Except String (List String)
  | [] => .ok []
  | n :: rest =>
    match resolve_target n, resolveAll rest with
    | .ok t, .ok ts => .ok (t :: ts)
    | .error e, _ => .error e
    | .ok _, .error e => .error e

/-- Append every name of `ds` that is not already present in `acc`, keeping
first-occurrence order. -/
def addAbsent (acc : List String) : List String → List String
  | [] => acc
  | d :: ds => addAbsent (if acc.contains d then acc else acc ++ [d]) ds

/-- Append `n` to the emitted list unless it is already present. -/
def withSelf (acc : List String) (n : String) : List String :=
  if acc.contains n then acc else acc ++ [n]

/-- Modelled from the spec: recursive, depth-first, policy-filtered dependency
expansion (spec section 4.3), emitting dependencies before the target that
needed them and deduplicating by first occurrence.  `acc` is the list of
targets already emitted and the last argument is the worklist of targets
still to visit; one unit of fuel is spent per processed worklist entry. -/
def expandGo (p : Policy) : Nat → List String → List String → List String
  | 0, acc, _ => acc
  | _ + 1, acc, [] => acc
  | fuel + 1, acc, n :: rest =>
    if acc.contains n then expandGo p fuel acc rest
    else
      match findClass n with
      | none => expandGo p fuel (acc ++ [n]) rest
      | some c =>
        if p.include_dependencies || c.depsMustBeBuilt then
          if c.directDepsOnly then
            expandGo p fuel (withSelf (addAbsent acc (activeDeps p c)) n) rest
          else
            expandGo p fuel (withSelf (expandGo p fuel acc (activeDeps p c)) n) rest
        else
          expandGo p fuel (acc ++ [n]) rest

/-- Expand a whole request, visiting requested targets in request order. -/
def expandMany (p : Policy) (roots : List String) : List String :=
  expandGo p 1000 [] roots

/-- Special-ordering group of a target name (spec section 4.4): `run-*`
targets are ordered last, `disk-image*` targets second to last. -/
def groupName (n : String) : Nat :=
  if strStartsWith n "run" then 2 else if strStartsWith n "disk-image" then 1 else 0

/-- Modelled from the spec: the must-precede relation of the topological
scheduler (spec section 4.4).  `d` must precede `t` if `d` is among `t`'s
transitive dependencies, or if `d` belongs to an earlier special-ordering
group and no dependency edge orders them the other way round (the synthetic
run-last / disk-image-second-to-last edges). -/
def prec (deps : String → List String) (d t : String) : Bool :=
  (deps t).contains d ||
    (!((deps d).contains t) && decide (groupName d < groupName t))

/-- First remaining target that no other remaining target must precede
(deterministic tie-breaking by first-discovered order). -/
def pickReady (deps : String → List String) (l : List String) : Option String :=
  l.find? (fun t => l.all (fun u => u == t || !prec deps u t))

/-- Modelled from the spec: selection-based deterministic topological
linearization (spec section 4.4); fails when no remaining target is ready
(a cyclic precedence configuration). -/
def scheduleAux (deps : String → List String) : Nat → List String → Except String (List String)
  | _, [] => .ok []
  | 0, _ :: _ => .error "out of fuel"
  | fuel + 1, n :: rest =>
    match pickReady deps (n :: rest) with
    | none => .error "cyclic dependency"
    | some t =>
      match scheduleAux deps fuel ((n :: rest).erase t) with
      | .error e => .error e
      | .ok out => .ok (t :: out)

/-- Linearize an expanded target list. -/
def schedule (deps : String → List String) (l : List String) : Except String (List String) :=
  scheduleAux deps l.length l

/-- Modelled from the spec: `compute_build_order` (spec section 6): resolve
the requested names, expand dependencies under the policy, and produce the
deterministic linear build order. -/
def compute_build_order (names : List String) (p : Policy) : Except String (List String) :=
  match resolveAll names with
  | .error e => .error e
  | .ok resolved => schedule (fullDeps p) (expandMany p resolved)

/-- Modelled from the spec: the per-class dependency cache (spec section 4.2),
a mapping from project-class name to its resolved full dependency list, with
absence as the explicit unset state. -/
abbrev DepCache := List (String × List String)

/-- Modelled from the spec: reading a class's cached dependency list; reading
before it was computed fails with the distinguishable not-cached-yet error
(the `ValueError` message matched in `_check_deps_not_cached`). -/
def cached_full_dependencies (cache : DepCache) (cls : String) : Except String (List String) :=
  match cache.lookup cls with
  | some v => .ok v
  | none => .error "cached_full_dependencies called before value was cached"

/-- Modelled from the spec: computing (and memoizing) the full transitive
dependency names of one project class (spec section 4.2,
`compute_and_cache`). -/
def all_dependency_names (p : Policy) (cache : DepCache) (cls : String) :
    List String × DepCache :=
  match cache.lookup cls with
  | some v => (v, cache)
  | none => (fullDeps p cls, (cls, fullDeps p cls) :: cache)

/-- Modelled from the spec: `reset` clears every class's cache between
independent resolution passes (spec section 4.5). -/
def reset (_ : DepCache) : DepCache := []

/-- Dependency lookup through the cache, falling back to a fresh computation
for classes not yet cached. -/
def cachedDeps (p : Policy) (cache : DepCache) (n : String) : List String :=
  match cache.lookup n with
  | some v => v
  | none => fullDeps p n

/-- Modelled from the spec: `compute_build_order` as actually run against the
process-wide dependency cache: the expansion populates the per-class cache
and the scheduler reads dependency information through it. -/
def compute_build_order_cached (names : List String) (p : Policy) (cache : DepCache) :
    Except String (List String) × DepCache :=
  match resolveAll names with
  | .error e => (.error e, cache)
  | .ok resolved =>
    let expanded := expandMany p resolved
    let cache2 := expanded.foldl (fun cc n => (all_dependency_names p cc n).snd) cache
    (schedule (cachedDeps p cache2) expanded, cache2)

/-- Lexicographic comparison of character lists by code point. -/
def charListLe : List Char → List Char → Bool
  | [], _ => true
  | _ :: _, [] => false
  | c :: cs, d :: ds =>
    if c.toNat < d.toNat then true
    else if d.toNat < c.toNat then false
    else charListLe cs ds

/-- Lexicographic comparison of names by code point (the order Python's
`sorted` uses on these ASCII names). -/
def strLe (s t : String) : Bool := charListLe s.data t.data

/-- Insert a name into a lexicographically sorted list of names. -/
def insertSorted (s : String) : List String → List String
  | [] => [s]
  | t :: ts => if strLe t s then t :: insertSorted s ts else s :: t :: ts

/-- Sort a list of names lexicographically (the tests compare
`sorted(all_dependency_names(...))`). -/
def sortNames (l : List String) : List String := l.foldr insertSorted []

/-- Default policy of `_sort_targets`: no recursive dependencies, toolchain
dependencies on, SDK not skipped, morello firmware from download. -/
def defaultPolicy : Policy := ⟨false, true, false, false⟩

/-- Policy used by `test_webkit_cached_deps`: recursive dependencies on,
toolchain dependencies off, SDK skipped. -/
def webkitTestConfig : Policy := ⟨true, false, true, false⟩

set_option maxRecDepth 1000000

/-! ### Basic facts about the helper functions -/

theorem contains_iff_mem {l : List String} {x : String} : l.contains x = true ↔ x ∈ l :=
  List.elem_iff

theorem nodup_append_singleton {x : String} :
    ∀ {l : List String}, l.Nodup → x ∉ l → (l ++ [x]).Nodup := by
  intro l
  induction l with
  | nil => intro _ _; simp
  | cons a as ih =>
    intro h hx
    rcases List.nodup_cons.mp h with ⟨ha, has⟩
    have hxas : x ∉ as := fun hm => hx (List.mem_cons_of_mem a hm)
    have hax : a ≠ x := fun he => hx (he ▸ List.mem_cons_self a as)
    refine List.nodup_cons.mpr ⟨?_, ih has hxas⟩
    intro hmem
    rcases List.mem_append.mp hmem with h1 | h2
    · exact ha h1
    · exact hax (List.mem_singleton.mp h2)

theorem withSelf_nodup {acc : List String} {n : String} (h : acc.Nodup) :
    (withSelf acc n).Nodup := by
  unfold withSelf
  by_cases hc : acc.contains n = true
  · rw [if_pos hc]; exact h
  · rw [if_neg hc]
    exact nodup_append_singleton h (fun hm => hc (contains_iff_mem.mpr hm))

theorem addAbsent_nodup : ∀ (ds acc : List String), acc.Nodup → (addAbsent acc ds).Nodup := by
  intro ds
  induction ds with
  | nil => intro acc h; rw [addAbsent]; exact h
  | cons d ds ih =>
    intro acc h
    rw [addAbsent]
    apply ih
    by_cases hc : acc.contains d = true
    · rw [if_pos hc]; exact h
    · rw [if_neg hc]
      exact nodup_append_singleton h (fun hm => hc (contains_iff_mem.mpr hm))

/-- The dependency expansion never emits a target twice. -/
theorem expandGo_nodup (p : Policy) :
    ∀ (fuel : Nat) (l acc : List String), acc.Nodup → (expandGo p fuel acc l).Nodup := by
  intro fuel
  induction fuel with
  | zero => intro l acc h; rw [expandGo]; exact h
  | succ fuel ih =>
    intro l acc h
    cases l with
    | nil => rw [expandGo]; exact h
    | cons n rest =>
      rw [expandGo]
      split
      · exact ih rest acc h
      · rename_i hc
        have hmem : n ∉ acc := fun hm => hc (contains_iff_mem.mpr hm)
        split
        · exact ih rest _ (nodup_append_singleton h hmem)
        · split
          · split
            · exact ih rest _ (withSelf_nodup (addAbsent_nodup _ _ h))
            · exact ih rest _ (withSelf_nodup (ih _ _ h))
          · exact ih rest _ (nodup_append_singleton h hmem)

/-- The expansion of any request has no duplicate names. -/
theorem expandMany_nodup (p : Policy) (roots : List String) : (expandMany p roots).Nodup :=
  expandGo_nodup p 1000 roots [] List.nodup_nil

/-! ### Facts about the scheduler -/

/-- Everything the scheduler emits came from its input list. -/
theorem scheduleAux_mem (deps : String → List String) :
    ∀ (fuel : Nat) (l out : List String), scheduleAux deps fuel l = .ok out →
      ∀ x, x ∈ out → x ∈ l := by
  intro fuel
  induction fuel with
  | zero =>
    intro l out h x hx
    cases l with
    | nil =>
      rw [scheduleAux] at h
      cases h
      cases hx
    | cons a as => rw [scheduleAux] at h; cases h
  | succ fuel ih =>
    intro l out h x hx
    cases l with
    | nil =>
      rw [scheduleAux] at h
      cases h
      cases hx
    | cons a as =>
      rw [scheduleAux] at h
      split at h
      · cases h
      · rename_i t hp
        split at h
        · cases h
        · rename_i rest hr
          cases h
          cases hx with
          | head => exact List.mem_of_find?_eq_some hp
          | tail _ hx2 => exact List.erase_subset _ _ (ih _ _ hr x hx2)

/-- The scheduler emits no name twice when its input has no duplicates. -/
theorem scheduleAux_nodup (deps : String → List String) :
    ∀ (fuel : Nat) (l out : List String), l.Nodup → scheduleAux deps fuel l = .ok out →
      out.Nodup := by
  intro fuel
  induction fuel with
  | zero =>
    intro l out hnd h
    cases l with
    | nil => rw [scheduleAux] at h; cases h; exact List.nodup_nil
    | cons a as => rw [scheduleAux] at h; cases h
  | succ fuel ih =>
    intro l out hnd h
    cases l with
    | nil => rw [scheduleAux] at h; cases h; exact List.nodup_nil
    | cons a as =>
      rw [scheduleAux] at h
      split at h
      · cases h
      · rename_i t hp
        split at h
        · cases h
        · rename_i rest hr
          cases h
          refine List.nodup_cons.mpr ⟨?_, ih _ _ (List.Nodup.erase t hnd) hr⟩
          intro hmem
          have h2 : t ∈ (a :: as).erase t := scheduleAux_mem deps fuel _ _ hr t hmem
          exact ((hnd.mem_erase_iff).mp h2).1 rfl

/-- In the scheduler output, no later element must precede an earlier one. -/
theorem scheduleAux_pairwise (deps : String → List String) :
    ∀ (fuel : Nat) (l out : List String), l.Nodup → scheduleAux deps fuel l = .ok out →
      out.Pairwise (fun a b => prec deps b a = false) := by
  intro fuel
  induction fuel with
  | zero =>
    intro l out hnd h
    cases l with
    | nil => rw [scheduleAux] at h; cases h; exact List.Pairwise.nil
    | cons a as => rw [scheduleAux] at h; cases h
  | succ fuel ih =>
    intro l out hnd h
    cases l with
    | nil => rw [scheduleAux] at h; cases h; exact List.Pairwise.nil
    | cons a as =>
      rw [scheduleAux] at h
      split at h
      · cases h
      · rename_i t hp
        split at h
        · cases h
        · rename_i rest hr
          cases h
          refine List.Pairwise.cons ?_ (ih _ _ (List.Nodup.erase t hnd) hr)
          intro b hb
          have hb2 : b ∈ (a :: as).erase t := scheduleAux_mem deps fuel _ _ hr b hb
          rcases (hnd.mem_erase_iff).mp hb2 with ⟨hbt, hbl⟩
          have hfind : (a :: as).find? (fun u => (a :: as).all (fun v => v == u || !prec deps v u)) = some t := by
            rw [pickReady] at hp; exact hp
          have hall := List.find?_some hfind
          have hbcond := List.all_eq_true.mp hall b hbl
          rcases Bool.or_eq_true_iff.mp hbcond with h1 | h2
          · exact absurd (by simpa using h1) hbt
          · simpa using h2

/-- A pairwise non-inversion property turns into a strict index ordering. -/
theorem pairwise_indexOf_lt {deps : String → List String} {out : List String} {a b : String}
    (_hnd : out.Nodup) (hpw : out.Pairwise (fun x y => prec deps y x = false))
    (ha : a ∈ out) (hb : b ∈ out) (hab : a ≠ b) (hprec : prec deps a b = true) :
    out.indexOf a < out.indexOf b := by
  rcases Nat.lt_trichotomy (out.indexOf a) (out.indexOf b) with hlt | heq | hgt
  · exact hlt
  · exact absurd ((List.indexOf_inj ha hb).mp heq) hab
  · exfalso
    have hbl : out.indexOf b < out.length := List.indexOf_lt_length.mpr hb
    have hal : out.indexOf a < out.length := List.indexOf_lt_length.mpr ha
    have hw := List.pairwise_iff_get.mp hpw ⟨out.indexOf b, hbl⟩ ⟨out.indexOf a, hal⟩ hgt
    rw [List.indexOf_get hal, List.indexOf_get hbl] at hw
    rw [hprec] at hw
    cases hw

/-- Split a successful `compute_build_order` run into its stages. -/
theorem compute_build_order_ok {names : List String} {p : Policy} {out : List String}
    (h : compute_build_order names p = .ok out) :
    ∃ resolved, resolveAll names = .ok resolved ∧
      schedule (fullDeps p) (expandMany p resolved) = .ok out := by
  unfold compute_build_order at h
  cases hr : resolveAll names with
  | error e => rw [hr] at h; cases h
  | ok resolved => rw [hr] at h; exact ⟨resolved, rfl, h⟩

theorem mem_dedupAux :
    ∀ (l seen : List String) (x : String), x ∈ dedupAux seen l ↔ x ∈ l ∧ x ∉ seen := by
  intro l
  induction l with
  | nil => intro seen x; rw [dedupAux]; simp
  | cons a as ih =>
    intro seen x
    rw [dedupAux]
    by_cases hc : seen.contains a = true
    · rw [if_pos hc]
      rw [ih seen x]
      have hseen : a ∈ seen := contains_iff_mem.mp hc
      constructor
      · rintro ⟨h1, h2⟩; exact ⟨List.mem_cons_of_mem a h1, h2⟩
      · rintro ⟨h1, h2⟩
        rcases List.mem_cons.mp h1 with rfl | h3
        · exact absurd hseen h2
        · exact ⟨h3, h2⟩
    · rw [if_neg hc]
      have hseen : a ∉ seen := fun hm => hc (contains_iff_mem.mpr hm)
      constructor
      · intro h1
        rcases List.mem_cons.mp h1 with rfl | h2
        · exact ⟨List.mem_cons_self _ _, hseen⟩
        · rcases (ih (a :: seen) x).mp h2 with ⟨h3, h4⟩
          refine ⟨List.mem_cons_of_mem a h3, fun hm => h4 (List.mem_cons_of_mem a hm)⟩
      · rintro ⟨h1, h2⟩
        rcases List.mem_cons.mp h1 with rfl | h3
        · exact List.mem_cons_self x _
        · by_cases hxa : x = a
          · subst hxa; exact List.mem_cons_self x _
          · refine List.mem_cons_of_mem a ((ih (a :: seen) x).mpr ⟨h3, ?_⟩)
            intro hm
            rcases List.mem_cons.mp hm with rfl | h4
            · exact hxa rfl
            · exact h2 h4

theorem mem_dedupFirst {l : List String} {x : String} : x ∈ dedupFirst l ↔ x ∈ l := by
  rw [dedupFirst, mem_dedupAux]
  simp

/-- A declared direct dependency is in every closure approximation level. -/
theorem directDeps_subset_depsLevel (p : Policy) (n : String) :
    ∀ (k : Nat), ∀ x ∈ directDeps p n, x ∈ depsLevel p k n := by
  intro k
  induction k with
  | zero => intro x hx; rw [depsLevel]; exact mem_dedupFirst.mpr hx
  | succ k ih =>
    intro x hx
    rw [depsLevel]
    exact mem_dedupFirst.mpr (List.mem_append.mpr (Or.inl (ih x hx)))

/-- A declared direct dependency is among the full transitive dependencies. -/
theorem directDeps_subset_fullDeps (p : Policy) (n : String) :
    ∀ x ∈ directDeps p n, x ∈ fullDeps p n :=
  directDeps_subset_depsLevel p n 6

/-- The single-request build order only depends on the resolved target. -/
theorem compute_build_order_resolve_congr {n1 n2 : String}
    (h : resolve_target n1 = resolve_target n2) (p : Policy) :
    compute_build_order [n1] p = compute_build_order [n2] p := by
  unfold compute_build_order
  unfold resolveAll
  rw [h]

/-- Cache state after computing the purecap webkit dependencies on a fresh cache. -/
def webkitCacheAfterPurecap : DepCache :=
  (all_dependency_names webkitTestConfig [] "qtwebkit-mips64-purecap").snd

/-- Cache state after additionally computing the hybrid webkit dependencies. -/
def webkitCacheAfterHybrid : DepCache :=
  (all_dependency_names webkitTestConfig webkitCacheAfterPurecap "qtwebkit-mips64-hybrid").snd

/-- Cache state after additionally computing the native webkit dependencies. -/
def webkitCacheAfterAll : DepCache :=
  (all_dependency_names webkitTestConfig webkitCacheAfterHybrid "qtwebkit-native").snd

/-- Base project names with mips64 variants, over which the legacy-suffix
claim is stated. -/
def mipsBases : List String :=
  ["libcxx", "libcxxrt", "libunwind", "qtwebkit", "qtbase", "icu4c", "libxml2", "sqlite",
   "cheribsd", "gdb", "postgres"]

/-! ### Claim theorems -/

/-- C1: for every request and policy, whenever `compute_build_order` succeeds,
every declared (variant-resolved) direct dependency `D` of a target `T` that
is itself part of the output appears strictly before `T` in the output,
regardless of the order in which the targets were requested. -/
theorem compute_build_order_dependency_precedence
    (names : List String) (p : Policy) (out : List String)
    (hok : compute_build_order names p = .ok out)
    (T D : String) (hT : T ∈ out) (hD : D ∈ out)
    (hdep : D ∈ directDeps p T) (hne : D ≠ T) :
    out.indexOf D < out.indexOf T := by
  rcases compute_build_order_ok hok with ⟨resolved, -, hsch⟩
  unfold schedule at hsch
  have hnd : (expandMany p resolved).Nodup := expandMany_nodup p resolved
  have hout_nd : out.Nodup := scheduleAux_nodup _ _ _ _ hnd hsch
  have hpw := scheduleAux_pairwise _ _ _ _ hnd hsch
  have hcont : (fullDeps p T).contains D = true :=
    contains_iff_mem.mpr (directDeps_subset_fullDeps p T D hdep)
  have hprec : prec (fullDeps p) D T = true := by
    unfold prec
    rw [hcont]
    rfl
  exact pairwise_indexOf_lt hout_nd hpw hD hT hne hprec

/-- Witness for C1: requesting gdb-mips64-hybrid before cheribsd-mips64-hybrid
still schedules cheribsd (a declared dependency of gdb) first. -/
theorem compute_build_order_dependency_precedence_witness :
    (["cheribsd-mips64-hybrid", "gdb-mips64-hybrid"] : List String).indexOf
        "cheribsd-mips64-hybrid" <
      (["cheribsd-mips64-hybrid", "gdb-mips64-hybrid"] : List String).indexOf
        "gdb-mips64-hybrid" :=
  compute_build_order_dependency_precedence
    ["gdb-mips64-hybrid", "cheribsd-mips64-hybrid"] defaultPolicy
    ["cheribsd-mips64-hybrid", "gdb-mips64-hybrid"] rfl
    "gdb-mips64-hybrid" "cheribsd-mips64-hybrid"
    (by decide) (by decide) (by decide) (by decide)

/-- C2 counterexample: in the mfs-root kernel request of `test_minimal_run`
the disk-image target `disk-image-minimal-mips64-hybrid` is scheduled
strictly before `cheribsd-mfs-root-kernel-mips64-hybrid`, which is neither a
run nor a disk-image target, so a disk-image target is not ordered after all
non-run, non-disk-image targets as the claim states. -/
theorem compute_build_order_special_ordering_counterexample :
    compute_build_order ["disk-image-minimal-mips64-hybrid",
        "cheribsd-mfs-root-kernel-mips64-hybrid", "run-minimal-mips64-hybrid"] defaultPolicy =
      .ok ["disk-image-minimal-mips64-hybrid", "cheribsd-mfs-root-kernel-mips64-hybrid",
           "run-minimal-mips64-hybrid"] ∧
    strStartsWith "cheribsd-mfs-root-kernel-mips64-hybrid" "run" = false ∧
    strStartsWith "cheribsd-mfs-root-kernel-mips64-hybrid" "disk-image" = false ∧
    strStartsWith "disk-image-minimal-mips64-hybrid" "disk-image" = true ∧
    (["disk-image-minimal-mips64-hybrid", "cheribsd-mfs-root-kernel-mips64-hybrid",
      "run-minimal-mips64-hybrid"] : List String).indexOf "disk-image-minimal-mips64-hybrid" <
      (["disk-image-minimal-mips64-hybrid", "cheribsd-mfs-root-kernel-mips64-hybrid",
        "run-minimal-mips64-hybrid"] : List String).indexOf
        "cheribsd-mfs-root-kernel-mips64-hybrid" :=
  ⟨rfl, rfl, rfl, rfl, by decide⟩

/-- C2 (amended): whenever `compute_build_order` succeeds, a target of an
earlier special-ordering group (non-run, non-disk-image before disk-image
before run) is scheduled strictly before a target of a later group, provided
the earlier target does not itself transitively depend on the later one (the
mfs-root kernels depend on their disk image and are the one exception); in
particular OS targets precede disk images precede run targets. -/
theorem compute_build_order_special_ordering
    (names : List String) (p : Policy) (out : List String)
    (hok : compute_build_order names p = .ok out)
    (a b : String) (ha : a ∈ out) (hb : b ∈ out)
    (hgroup : groupName a < groupName b)
    (hnodep : (fullDeps p a).contains b = false) :
    out.indexOf a < out.indexOf b := by
  rcases compute_build_order_ok hok with ⟨resolved, -, hsch⟩
  unfold schedule at hsch
  have hnd : (expandMany p resolved).Nodup := expandMany_nodup p resolved
  have hout_nd : out.Nodup := scheduleAux_nodup _ _ _ _ hnd hsch
  have hpw := scheduleAux_pairwise _ _ _ _ hnd hsch
  have hne : a ≠ b := by
    intro he
    rw [he] at hgroup
    exact Nat.lt_irrefl _ hgroup
  have hprec : prec (fullDeps p) a b = true := by
    unfold prec
    rw [hnodep]
    simp [hgroup]
  exact pairwise_indexOf_lt hout_nd hpw ha hb hne hprec

/-- Witness for C2 (amended): in the request of
`test_disk_image_comes_second_last`, the OS target cheribsd-mips64-hybrid is
scheduled before the disk image. -/
theorem compute_build_order_special_ordering_witness :
    (["cheribsd-mips64-hybrid", "disk-image-mips64-hybrid", "run-mips64-hybrid"] :
        List String).indexOf "cheribsd-mips64-hybrid" <
      (["cheribsd-mips64-hybrid", "disk-image-mips64-hybrid", "run-mips64-hybrid"] :
        List String).indexOf "disk-image-mips64-hybrid" :=
  compute_build_order_special_ordering
    ["run-mips64-hybrid", "disk-image-mips64-hybrid", "cheribsd-mips64-hybrid"] defaultPolicy
    ["cheribsd-mips64-hybrid", "disk-image-mips64-hybrid", "run-mips64-hybrid"] rfl
    "cheribsd-mips64-hybrid" "disk-image-mips64-hybrid"
    (by decide) (by decide) (by decide) (by decide)

/-- C3: `compute_build_order` is deterministic: two runs over identical
requested names and identical policy flags, each starting from a fully reset
dependency cache, return exactly the same result, independently of the cache
contents left behind by earlier runs. -/
theorem compute_build_order_deterministic
    (names : List String) (p : Policy) (c1 c2 : DepCache) :
    (compute_build_order_cached names p (reset c1)).fst =
      (compute_build_order_cached names p (reset c2)).fst := rfl

/-- C4: for every request and policy, a successful build order contains each
target name at most once; in particular requesting binutils and llvm with
dependency expansion yields exactly the single target llvm-native. -/
theorem compute_build_order_no_duplicates
    (names : List String) (p : Policy) (out : List String)
    (hok : compute_build_order names p = .ok out) :
    out.Nodup ∧
      compute_build_order ["binutils", "llvm"] ⟨true, true, false, false⟩ =
        .ok ["llvm-native"] := by
  rcases compute_build_order_ok hok with ⟨resolved, -, hsch⟩
  unfold schedule at hsch
  exact ⟨scheduleAux_nodup _ _ _ _ (expandMany_nodup p resolved) hsch, rfl⟩

/-- Witness for C4 at the binutils/llvm request itself. -/
theorem compute_build_order_no_duplicates_witness :
    (["llvm-native"] : List String).Nodup :=
  (compute_build_order_no_duplicates ["binutils", "llvm"] ⟨true, true, false, false⟩
    ["llvm-native"] rfl).1

/-- C5: reading the cached dependency list of a class before it has been
computed fails with the distinguishable not-cached-yet error and never
returns any successful value, in particular never an empty sequence. -/
theorem cached_full_dependencies_not_ready
    (cache : DepCache) (cls : String) (h : cache.lookup cls = none) :
    cached_full_dependencies cache cls =
        .error "cached_full_dependencies called before value was cached" ∧
      ∀ l : List String, cached_full_dependencies cache cls ≠ .ok l := by
  unfold cached_full_dependencies
  rw [h]
  exact ⟨rfl, fun l hl => by cases hl⟩

/-- Witness for C5 on the fresh cache and the qtwebkit-native class. -/
theorem cached_full_dependencies_not_ready_witness :
    cached_full_dependencies [] "qtwebkit-native" =
        .error "cached_full_dependencies called before value was cached" ∧
      ∀ l : List String, cached_full_dependencies [] "qtwebkit-native" ≠ .ok l :=
  cached_full_dependencies_not_ready [] "qtwebkit-native" rfl

/-- C6: computing and caching the dependency names of one class leaves every
other class's cache entry untouched; concretely, after resolving
qtwebkit-mips64-purecap the native and hybrid variants are still not cached,
after additionally resolving the hybrid variant the native one is still not
cached, and each variant's resolved list contains exactly its own variant's
targets (the sorted lists asserted by `test_webkit_cached_deps`). -/
theorem all_dependency_names_cache_isolation
    (p : Policy) (cache : DepCache) (cls other : String) (h : other ≠ cls) :
    ((all_dependency_names p cache cls).snd.lookup other = cache.lookup other) ∧
    cached_full_dependencies webkitCacheAfterPurecap "qtwebkit-native" =
      .error "cached_full_dependencies called before value was cached" ∧
    cached_full_dependencies webkitCacheAfterPurecap "qtwebkit-mips64-hybrid" =
      .error "cached_full_dependencies called before value was cached" ∧
    cached_full_dependencies webkitCacheAfterHybrid "qtwebkit-native" =
      .error "cached_full_dependencies called before value was cached" ∧
    sortNames (all_dependency_names webkitTestConfig [] "qtwebkit-mips64-purecap").fst =
      ["cheribsd-mips64-purecap", "icu4c-mips64-purecap", "icu4c-native",
       "libxml2-mips64-purecap", "llvm-native", "qtbase-mips64-purecap",
       "sqlite-mips64-purecap"] ∧
    sortNames (all_dependency_names webkitTestConfig webkitCacheAfterPurecap
        "qtwebkit-mips64-hybrid").fst =
      ["cheribsd-mips64-hybrid", "icu4c-mips64-hybrid", "icu4c-native",
       "libxml2-mips64-hybrid", "llvm-native", "qtbase-mips64-hybrid",
       "sqlite-mips64-hybrid"] ∧
    sortNames (all_dependency_names webkitTestConfig webkitCacheAfterHybrid
        "qtwebkit-native").fst =
      ["icu4c-native", "libxml2-native", "qtbase-native", "sqlite-native"] := by
  refine ⟨?_, rfl, rfl, rfl, rfl, rfl, rfl⟩
  unfold all_dependency_names
  split
  · rfl
  · simp only [List.lookup]
    rw [beq_eq_false_iff_ne.mpr h]

/-- Witness for C6: computing the purecap webkit class on a fresh cache
leaves the native class's (absent) entry untouched. -/
theorem all_dependency_names_cache_isolation_witness :
    ((all_dependency_names webkitTestConfig [] "qtwebkit-mips64-purecap").snd.lookup
        "qtwebkit-native" = ([] : DepCache).lookup "qtwebkit-native") ∧
    cached_full_dependencies webkitCacheAfterPurecap "qtwebkit-native" =
      .error "cached_full_dependencies called before value was cached" ∧
    cached_full_dependencies webkitCacheAfterPurecap "qtwebkit-mips64-hybrid" =
      .error "cached_full_dependencies called before value was cached" ∧
    cached_full_dependencies webkitCacheAfterHybrid "qtwebkit-native" =
      .error "cached_full_dependencies called before value was cached" ∧
    sortNames (all_dependency_names webkitTestConfig [] "qtwebkit-mips64-purecap").fst =
      ["cheribsd-mips64-purecap", "icu4c-mips64-purecap", "icu4c-native",
       "libxml2-mips64-purecap", "llvm-native", "qtbase-mips64-purecap",
       "sqlite-mips64-purecap"] ∧
    sortNames (all_dependency_names webkitTestConfig webkitCacheAfterPurecap
        "qtwebkit-mips64-hybrid").fst =
      ["cheribsd-mips64-hybrid", "icu4c-mips64-hybrid", "icu4c-native",
       "libxml2-mips64-hybrid", "llvm-native", "qtbase-mips64-hybrid",
       "sqlite-mips64-hybrid"] ∧
    sortNames (all_dependency_names webkitTestConfig webkitCacheAfterHybrid
        "qtwebkit-native").fst =
      ["icu4c-native", "libxml2-native", "qtbase-native", "sqlite-native"] :=
  all_dependency_names_cache_isolation webkitTestConfig [] "qtwebkit-mips64-purecap"
    "qtwebkit-native" (by decide)

/-- C7: the legacy suffix table maps -mips-nocheri to -mips64 and
-mips-purecap to -mips64-purecap while leaving -mips64-hybrid unchanged, and
for every base project the dependency expansion of a legacy-suffixed name
equals, for every policy, the expansion of the corresponding canonical
name. -/
theorem legacy_suffix_normalization_expansion
    (base : String) (hbase : base ∈ mipsBases) (p : Policy) :
    legacyNormalize (base ++ "-mips-nocheri") = base ++ "-mips64" ∧
    legacyNormalize (base ++ "-mips-purecap") = base ++ "-mips64-purecap" ∧
    legacyNormalize (base ++ "-mips64-hybrid") = base ++ "-mips64-hybrid" ∧
    compute_build_order [base ++ "-mips-nocheri"] p =
      compute_build_order [base ++ "-mips64"] p ∧
    compute_build_order [base ++ "-mips-purecap"] p =
      compute_build_order [base ++ "-mips64-purecap"] p := by
  fin_cases hbase <;>
    exact ⟨rfl, rfl, rfl, compute_build_order_resolve_congr rfl p,
      compute_build_order_resolve_congr rfl p⟩

/-- Witness for C7 at libcxx with the policy of `test_libcxx_deps`. -/
theorem legacy_suffix_normalization_expansion_witness :
    legacyNormalize ("libcxx" ++ "-mips-nocheri") = "libcxx" ++ "-mips64" ∧
    legacyNormalize ("libcxx" ++ "-mips-purecap") = "libcxx" ++ "-mips64-purecap" ∧
    legacyNormalize ("libcxx" ++ "-mips64-hybrid") = "libcxx" ++ "-mips64-hybrid" ∧
    compute_build_order ["libcxx" ++ "-mips-nocheri"] ⟨true, true, true, false⟩ =
      compute_build_order ["libcxx" ++ "-mips64"] ⟨true, true, true, false⟩ ∧
    compute_build_order ["libcxx" ++ "-mips-purecap"] ⟨true, true, true, false⟩ =
      compute_build_order ["libcxx" ++ "-mips64-purecap"] ⟨true, true, true, false⟩ :=
  legacy_suffix_normalization_expansion "libcxx" (by decide) ⟨true, true, true, false⟩

/-- C8: requesting morello-firmware with build-from-source set yields exactly
the five-element firmware sequence for every setting of the
include-dependencies and include-toolchain flags, and with
build-from-source unset it yields exactly the firmware target alone. -/
theorem morello_firmware_build_order (d t : Bool) :
    compute_build_order ["morello-firmware"] ⟨d, t, false, true⟩ =
      .ok ["morello-scp-firmware", "morello-trusted-firmware", "morello-flash-images",
           "morello-uefi", "morello-firmware"] ∧
    compute_build_order ["morello-firmware"] ⟨d, t, false, false⟩ =
      .ok ["morello-firmware"] := by
  cases d <;> cases t <;> exact ⟨rfl, rfl⟩

/-- C9: for the mfs-root kernel special case, both request orders of
`test_minimal_run` are scheduled with the minimal disk image strictly before
the mfs-root kernel and the run target last. -/
theorem mfs_root_minimal_build_order :
    compute_build_order ["disk-image-minimal-mips64-hybrid",
        "cheribsd-mfs-root-kernel-mips64-hybrid", "run-minimal-mips64-hybrid"] defaultPolicy =
      .ok ["disk-image-minimal-mips64-hybrid", "cheribsd-mfs-root-kernel-mips64-hybrid",
           "run-minimal-mips64-hybrid"] ∧
    compute_build_order ["cheribsd-mfs-root-kernel-mips64-hybrid",
        "disk-image-minimal-mips64-hybrid", "run-minimal-mips64-hybrid"] defaultPolicy =
      .ok ["disk-image-minimal-mips64-hybrid", "cheribsd-mfs-root-kernel-mips64-hybrid",
           "run-minimal-mips64-hybrid"] :=
  ⟨rfl, rfl⟩

/-- C10: computing and caching the full dependency names of all three
qtwebkit variant classes populates their caches with the variant-resolved
lists but leaves the statically declared dependency template of every class
equal to qtbase, icu4c, libxml2, sqlite. -/
theorem webkit_static_dependencies_unchanged :
    staticDependencies "qtwebkit-native" = ["qtbase", "icu4c", "libxml2", "sqlite"] ∧
    staticDependencies "qtwebkit-mips64-hybrid" = ["qtbase", "icu4c", "libxml2", "sqlite"] ∧
    staticDependencies "qtwebkit-mips64-purecap" = ["qtbase", "icu4c", "libxml2", "sqlite"] ∧
    webkitCacheAfterAll.lookup "qtwebkit-mips64-purecap" =
      some (fullDeps webkitTestConfig "qtwebkit-mips64-purecap") ∧
    webkitCacheAfterAll.lookup "qtwebkit-mips64-hybrid" =
      some (fullDeps webkitTestConfig "qtwebkit-mips64-hybrid") ∧
    webkitCacheAfterAll.lookup "qtwebkit-native" =
      some (fullDeps webkitTestConfig "qtwebkit-native") :=
  ⟨rfl, rfl, rfl, rfl, rfl, rfl⟩

end Cheribuild
